import Mathlib

/-!
Verification of the FinTrack consistency and aggregation layer.

This file gives a shallow embedding of the core of the FinTrack backend:
the transaction service and its budget-ledger maintenance
(src/backend/src/services/transactionService.js, src/backend/src/models/Budget.js),
the ML-service client behaviour relevant to categorization
(src/backend/src/services/mlService.js), the forecast and health-score
services, the goal-progress engine, and the transaction repository's
paginated query.  Amounts are rationals (JS numbers on the values the
system manipulates), dates are (year, month, day) triples ordered
lexicographically, and persistence failures (mongoose schema validation)
are modelled with `Except`.
-/

namespace FinTrack

/-- Transaction direction (the source's `type` field, enum income/expense). -/
inductive TxnType where
  | income : TxnType
  | expense : TxnType
deriving DecidableEq, Repr

/-- Calendar date.  The source stores JS `Date` values and extracts
`getMonth() + 1` / `getFullYear()`; here `month` is already the 1-based
month and the chronological order is the lexicographic order on
(year, month, day). -/
structure Date where
  year : ℕ
  month : ℕ
  day : ℕ
deriving DecidableEq, Repr

/-- Strict chronological order on dates (lexicographic on year, month, day). -/
def dateLt (a b : Date) : Prop :=
  a.year < b.year ∨ (a.year = b.year ∧
    (a.month < b.month ∨ (a.month = b.month ∧ a.day < b.day)))

instance (a b : Date) : Decidable (dateLt a b) := by
  unfold dateLt; infer_instance

/-- Non-strict chronological order on dates. -/
def dateLe (a b : Date) : Prop := dateLt a b ∨ a = b

instance (a b : Date) : Decidable (dateLe a b) := by
  unfold dateLe; infer_instance

/-- A stored transaction row (src/backend/src/models/Transaction.js).
`createdAt` is the mongoose timestamp used as the secondary sort key.
The needs-vs-wants metadata, notes, tags and aiConfidence are elided:
no claim reads them and no control flow branches on them. -/
structure Txn where
  id : ℕ
  userId : ℕ
  type : TxnType
  amount : ℚ
  description : String
  category : String
  categorySource : String
  date : Date
  createdAt : ℕ
deriving DecidableEq, Repr

/-- Mongoose schema validation for a transaction document: `amount` has
`min: 0`, and the required string paths `category` and `description`
reject the empty string. -/
def validTxn (t : Txn) : Bool :=
  decide (0 ≤ t.amount) && t.category ≠ "" && t.description ≠ ""

/-- The budget ledger: `spent` per (userId, category, month, year) row.
A row that was never created holds the schema default `spent = 0`
(`Budget.getOrCreate` creates missing rows with `spent = 0`, so absent
and freshly created rows are indistinguishable on `spent`). -/
def Ledger : Type := ℕ → String → ℕ → ℕ → ℚ

/-- The empty ledger (no rows, i.e. every row at the default 0). -/
def emptyLedger : Ledger := fun _ _ _ _ => 0

/-- Embedding of `Budget.updateSpent` (src/backend/src/models/Budget.js lines 84-89):
get-or-create the (userId, category, month, year) row, add `amt` to its
`spent`, and `save()`.  The schema declares `spent: { min: 0 }`, so the
save fails mongoose validation when the new `spent` is negative, and the
row keeps its previous value. -/
def updateSpent (l : Ledger) (uid : ℕ) (c : String) (m y : ℕ) (amt : ℚ) :
    Except String Ledger :=
  let spentNew := l uid c m y + amt
  if spentNew < 0 then
    .error "ValidationError: spent cannot be negative"
  else
    .ok (fun u2 c2 m2 y2 =>
      if u2 = uid ∧ c2 = c ∧ m2 = m ∧ y2 = y then spentNew else l u2 c2 m2 y2)

/-- Persistent state touched by the transaction service: the transaction
collection and the budget ledger. -/
structure St where
  txns : List Txn
  ledger : Ledger

/-- Embedding of `TransactionService.getById`: load by id, `NotFoundError` when the
row is absent or owned by a different user. -/
def getById (s : St) (uid id : ℕ) : Except String Txn :=
  match s.txns.find? (fun t => t.id = id) with
  | none => .error "NotFoundError: Transaction"
  | some t =>
    if t.userId = uid then .ok t else .error "NotFoundError: Transaction"

/-- Result of the external Category Predictor as surfaced by
`mlService.predictCategory`: the prediction payload, or `none` when the
HTTP call failed or timed out (the client catches every error and
returns `null`, it never throws). -/
structure Prediction where
  category : String
  confidence : Option ℚ
deriving DecidableEq, Repr

/-- Input to `TransactionService.create`.  A supplied empty-string
category is falsy in JS, so it behaves as "no category supplied". -/
structure CreateInput where
  type : TxnType
  amount : ℚ
  description : String
  category : Option String
  date : Date
deriving DecidableEq, Repr

/-- JS truthiness of the optional category string. -/
def catGiven (c : Option String) : Bool :=
  match c with
  | some s => s ≠ ""
  | none => false

/-- The transaction object `TransactionService.create` builds before
persisting: the fixed initial default `'Other Expense'` and source
`'user'`/`'auto'`, then — only when no category was supplied — the
predictor's category with source `'ai'` when the prediction is truthy
(the service-level catch block is unreachable because `predictCategory`
returns `null` on failure instead of throwing). -/
def builtTxn (pred : Option Prediction) (uid : ℕ) (inp : CreateInput)
    (newId newCreatedAt : ℕ) : Txn :=
  let base : Txn :=
    { id := newId, userId := uid, type := inp.type, amount := inp.amount,
      description := inp.description,
      category := if catGiven inp.category then inp.category.getD "" else "Other Expense",
      categorySource := if catGiven inp.category then "user" else "auto",
      date := inp.date, createdAt := newCreatedAt }
  if catGiven inp.category then base
  else
    match pred with
    | some p => { base with category := p.category, categorySource := "ai" }
    | none => base

/-- The tail of `TransactionService.create`: persist the row (mongoose
validation) and, if the direction is expense and the category truthy,
add the amount to the matching budget row. -/
def persistAndBudget (s : St) (uid : ℕ) (t : Txn) : Except String St :=
  if ¬ validTxn t then .error "ValidationError: transaction"
  else
    let s1 : St := { s with txns := s.txns ++ [t] }
    if t.type = TxnType.expense ∧ t.category ≠ "" then
      match updateSpent s1.ledger uid t.category t.date.month t.date.year t.amount with
      | .error e => .error e
      | .ok l => .ok { s1 with ledger := l }
    else .ok s1

/-- Embedding of `TransactionService.create` (src transaction service lines 14-81).
`cats` is the owner's category directory (`categoryRepository.findByName`),
`pred` the Category Predictor outcome.  Steps, in source order: validate
a supplied category, build the transaction object (`builtTxn`), persist
it and apply the budget contribution (`persistAndBudget`). -/
def create (cats : List String) (pred : Option Prediction) (s : St)
    (uid : ℕ) (inp : CreateInput) (newId newCreatedAt : ℕ) :
    Except String St :=
  if catGiven inp.category ∧ ¬ cats.contains (inp.category.getD "") then
    .error "ValidationError: category does not exist"
  else
    persistAndBudget s uid (builtTxn pred uid inp newId newCreatedAt)

/-- An update patch ($set payload restricted to the fields the budget
logic inspects: amount, category, date). -/
structure Patch where
  amount : Option ℚ
  category : Option String
  date : Option Date
deriving DecidableEq, Repr

/-- JS truthiness of `updateData.category` (empty string is falsy). -/
def patchCatTruthy (p : Patch) : Bool :=
  match p.category with
  | some c => c ≠ ""
  | none => false

/-- JS truthiness of `updateData.amount` (0 is falsy). -/
def patchAmtTruthy (p : Patch) : Bool :=
  match p.amount with
  | some a => a ≠ 0
  | none => false

/-- Mongoose update validators on the $set paths: `amount` min 0,
required string `category` non-empty. -/
def validPatch (p : Patch) : Bool :=
  (match p.amount with | some a => decide (0 ≤ a) | none => true) &&
  (match p.category with | some c => c ≠ "" | none => true)

/-- The source's `newAmount = updateData.amount || existingTransaction.amount`
(a patched amount of 0 is falsy and falls back to the old amount). -/
def newAmountOf (t : Txn) (p : Patch) : ℚ :=
  match p.amount with
  | some a => if a = 0 then t.amount else a
  | none => t.amount

/-- The source's `newCategory = updateData.category || existingTransaction.category`. -/
def newCategoryOf (t : Txn) (p : Patch) : String :=
  match p.category with
  | some c => if c = "" then t.category else c
  | none => t.category

/-- Apply the $set patch to a stored row. -/
def applyPatch (t : Txn) (p : Patch) : Txn :=
  { t with amount := p.amount.getD t.amount,
           category := p.category.getD t.category,
           date := p.date.getD t.date }

/-- The budget phase of `TransactionService.update`: under the source's
guard `updateData.category || updateData.amount` (JS truthiness, so a
patch whose amount is 0 or whose only change is the date does not touch
the ledger), revert `-oldAmount` on the old (category, month, year) row
when the existing direction is expense, then apply `newAmount` on the
new row. -/
def budgetAdjust (s : St) (uid : ℕ) (t : Txn) (p : Patch) :
    Except String Ledger :=
  if patchCatTruthy p || patchAmtTruthy p then
    let reverted : Except String Ledger :=
      if t.type = TxnType.expense then
        updateSpent s.ledger uid t.category t.date.month t.date.year (-t.amount)
      else .ok s.ledger
    match reverted with
    | .error e => .error e
    | .ok l1 =>
      let newDate : Date := p.date.getD t.date
      if t.type = TxnType.expense then
        updateSpent l1 uid (newCategoryOf t p) newDate.month newDate.year
          (newAmountOf t p)
      else .ok l1
  else .ok s.ledger

/-- Embedding of `TransactionService.update` (src transaction service lines 98-134):
load and ownership-check, run the budget phase, then let the repository
apply the $set patch with update validators.  The source runs the budget
writes before the repository update; a repository validation failure
would leave them applied, but every such patch is already rejected by
the route validators upstream, so the single-`Except` model collapses
the two failure points. -/
def update (s : St) (uid id : ℕ) (p : Patch) : Except String St :=
  match getById s uid id with
  | .error e => .error e
  | .ok t =>
    match budgetAdjust s uid t p with
    | .error e => .error e
    | .ok l2 =>
      if validPatch p then
        .ok { txns := s.txns.map (fun u => if u.id = id then applyPatch u p else u),
              ledger := l2 }
      else .error "ValidationError: transaction"

/-- Embedding of `TransactionService.delete` (src transaction service lines 136-152):
load and ownership-check, revert the budget contribution when the
direction is expense, remove the row. -/
def delete (s : St) (uid id : ℕ) : Except String St :=
  match getById s uid id with
  | .error e => .error e
  | .ok t =>
    let reverted : Except String Ledger :=
      if t.type = TxnType.expense then
        updateSpent s.ledger uid t.category t.date.month t.date.year (-t.amount)
      else .ok s.ledger
    match reverted with
    | .error e => .error e
    | .ok l => .ok { txns := s.txns.filter (fun u => ¬ u.id = id), ledger := l }

/-- Membership of a transaction in one (owner, category, month, year)
expense bucket of the Budget Ledger. -/
def inBucket (t : Txn) (uid : ℕ) (c : String) (m y : ℕ) : Prop :=
  t.userId = uid ∧ t.type = TxnType.expense ∧ t.category = c ∧
  t.date.month = m ∧ t.date.year = y

instance (t : Txn) (uid : ℕ) (c : String) (m y : ℕ) :
    Decidable (inBucket t uid c m y) := by
  unfold inBucket; infer_instance

/-- Sum of `amount` over the currently existing expense transactions of
one (owner, category, month, year) bucket — the value the spec's ledger
invariant says the bucket's `spent` must equal. -/
def bucketSum (txns : List Txn) (uid : ℕ) (c : String) (m y : ℕ) : ℚ :=
  ((txns.filter (fun t => inBucket t uid c m y)).map (fun t => t.amount)).sum

/-- Initial empty state. -/
def st0 : St := { txns := [], ledger := emptyLedger }

/-- Create input of the C1 scenario: expense of 50 in category Food on
2024-01-15, category supplied by the user. -/
def foodExpense : CreateInput :=
  { type := TxnType.expense, amount := 50, description := "groceries",
    category := some "Food", date := { year := 2024, month := 1, day := 15 } }

/-- C1 failing run: create the Food expense, then update it with
`{ amount: 0 }` (a legal patch: the update route allows any float ≥ 0). -/
def c1Run : Except String St :=
  match create ["Food"] none st0 7 foodExpense 0 0 with
  | .error e => .error e
  | .ok s => update s 7 0 { amount := some 0, category := none, date := none }

/-- Claim C1 (code bug): after creating an expense of 50 in the
(Food, 1, 2024) bucket and updating its amount to 0, the operations all
succeed, yet the Budget Ledger row's `spent` is still 50 while the sum
of `amount` over the existing expense transactions of the bucket is 0 —
the spec's ledger-consistency invariant is violated, because the JS
guard `updateData.category || updateData.amount` treats the amount 0 as
falsy and skips the budget adjustment while the $set still stores 0. -/
theorem C1_zero_amount_update_breaks_ledger_invariant :
    (c1Run.toOption.map (fun s =>
      (s.ledger 7 "Food" 1 2024, bucketSum s.txns 7 "Food" 1 2024))) =
      some ((50 : ℚ), (0 : ℚ)) := by
  norm_num +decide [c1Run, create, update, getById, updateSpent, bucketSum, inBucket, validTxn, newAmountOf, newCategoryOf, builtTxn, persistAndBudget, budgetAdjust,
    catGiven, patchCatTruthy, patchAmtTruthy, validPatch, applyPatch, st0,
    foodExpense, emptyLedger, Except.toOption]

/-- C2 failing run: create the Food expense dated 2024-01-15, then
update only its date, across the month boundary, to 2024-02-15. -/
def c2Run : Except String St :=
  match create ["Food"] none st0 7 foodExpense 0 0 with
  | .error e => .error e
  | .ok s =>
    update s 7 0
      { amount := none, category := none,
        date := some { year := 2024, month := 2, day := 15 } }

/-- Claim C2 (code bug): an update that changes only the date across a
month boundary relocates nothing: the old (Food, 1, 2024) row's `spent`
stays 50 and the new (Food, 2, 2024) row stays 0, while the transaction
itself now lives in the February bucket (its bucket sums are 0 and 50).
The source's guard `updateData.category || updateData.amount` omits
`updateData.date`, so the revert-then-reapply block — which does compute
the new date — is unreachable on a date-only patch. -/
theorem C2_date_only_update_does_not_relocate :
    (c2Run.toOption.map (fun s =>
      (s.ledger 7 "Food" 1 2024, s.ledger 7 "Food" 2 2024,
       bucketSum s.txns 7 "Food" 1 2024, bucketSum s.txns 7 "Food" 2 2024))) =
      some ((50 : ℚ), (0 : ℚ), (0 : ℚ), (50 : ℚ)) := by
  norm_num +decide [c2Run, create, update, getById, updateSpent, bucketSum, inBucket, validTxn, newAmountOf, newCategoryOf, builtTxn, persistAndBudget, budgetAdjust,
    catGiven, patchCatTruthy, patchAmtTruthy, validPatch, applyPatch, st0,
    foodExpense, emptyLedger, Except.toOption]

/-- C3 failing run: create an income transaction with no category while
the Category Predictor is unavailable (`predictCategory` catches the
failure and yields `null`, so `pred = none`). -/
def c3Run : Except String St :=
  create [] none st0 7
    { type := TxnType.income, amount := 20, description := "salary",
      category := none, date := { year := 2024, month := 3, day := 1 } }
    0 0

/-- Claim C3 (code bug): on predictor failure the income transaction is
persisted without an exception, but its category is the fixed initial
default `Other Expense`, not the direction-appropriate `Other Income`:
the service's catch block that chooses by direction is dead code, since
`mlService.predictCategory` swallows every error and returns `null`
instead of throwing.  The category source is `auto` (the stored enum
value the spec calls `default`). -/
theorem C3_income_predictor_failure_gets_other_expense :
    (c3Run.toOption.map (fun s =>
      s.txns.map (fun t => (t.category, t.categorySource)))) =
      some [("Other Expense", "auto")] := by
  norm_num +decide [c3Run, create, updateSpent, bucketSum, inBucket, validTxn, catGiven, builtTxn, persistAndBudget, st0,
    emptyLedger, Except.toOption]

/-- Claim C10: `Budget.updateSpent` saves succeed exactly when the new
`spent` is non-negative (the schema's `min: 0` validator), and starting
from a ledger whose rows are all non-negative, every successful save
leaves every row non-negative — no operation can store a negative
accumulated `spent`. -/
theorem C10_updateSpent_never_stores_negative_spent (l : Ledger)
    (h : ∀ u c m y, 0 ≤ l u c m y) (uid : ℕ) (c : String) (m y : ℕ) (amt : ℚ) :
    ((∃ l2, updateSpent l uid c m y amt = .ok l2) ↔ 0 ≤ l uid c m y + amt) ∧
    (∀ l2, updateSpent l uid c m y amt = .ok l2 → ∀ u2 c2 m2 y2, 0 ≤ l2 u2 c2 m2 y2) := by
  by_cases hneg : l uid c m y + amt < 0
  · refine ⟨?_, ?_⟩
    · simp [updateSpent, hneg]
    · intro l2 hl2
      simp [updateSpent, hneg] at hl2
  · push_neg at hneg
    refine ⟨?_, ?_⟩
    · simp [updateSpent, not_lt.mpr hneg]
      exact hneg
    · intro l2 hl2 u2 c2 m2 y2
      simp [updateSpent, not_lt.mpr hneg] at hl2
      subst hl2
      by_cases hk : u2 = uid ∧ c2 = c ∧ m2 = m ∧ y2 = y
      · simp [hk]
        linarith
      · simp [hk]
        exact h u2 c2 m2 y2

/-- Witness for C10: a revert of 5 on an empty ledger row (spent 0) is
rejected by validation — the save does not succeed. -/
theorem C10_witness :
    (∃ l2, updateSpent emptyLedger 1 "Food" 1 2024 (-5) = .ok l2) ↔
      0 ≤ emptyLedger 1 "Food" 1 2024 + (-5) :=
  (C10_updateSpent_never_stores_negative_spent emptyLedger
    (fun _ _ _ _ => le_refl 0) 1 "Food" 1 2024 (-5)).1

/-- One per-date prediction of a stored forecast
(src/backend/src/models/Forecast.js). -/
structure ForecastPoint where
  date : Date
  predictedAmount : ℚ
  lowerBound : ℚ
  upperBound : ℚ
  confidence : ℚ
deriving DecidableEq, Repr

/-- Payload returned by the external Forecast Predictor
(`mlService.generateForecast` rethrows its errors, so a failure is an
`Except.error` for the caller). -/
structure ForecastData where
  predictions : List ForecastPoint
  riskIndicator : String
  riskScore : ℚ
deriving DecidableEq, Repr

/-- One history point sent to the Forecast Predictor: the transaction's
`signedAmount` virtual plus date, type, category. -/
structure HistPoint where
  amount : ℚ
  date : Date
  type : TxnType
  category : String
deriving DecidableEq, Repr

/-- The `signedAmount` virtual of the Transaction schema: positive for
income, negative for expense. -/
def signedAmount (t : Txn) : ℚ :=
  if t.type = TxnType.income then t.amount else -t.amount

/-- A stored Forecast record (src/backend/src/models/Forecast.js; the
free-form metadata object is elided, no claim reads it). -/
structure Forecast where
  userId : ℕ
  forecastType : String
  startDate : Date
  predictions : List ForecastPoint
  riskIndicator : String
  riskScore : ℚ
deriving DecidableEq, Repr

/-- Embedding of `ForecastService.generateAndStore`
(src/backend/src/services/forecastService.js lines 11-55).  `window` is
the result of `getByDateRange` over the trailing 90 days.  The guard is
`transactions.length < 30`: it counts transactions, not distinct days.
On success a new record dated `now` is appended to the store, never
overwriting prior ones. -/
def generateAndStore (uid : ℕ) (window : List Txn)
    (predictor : List HistPoint → ForecastData) (now : Date)
    (store : List Forecast) (ftype : String) :
    Except String (List Forecast × Forecast) :=
  if window.length < 30 then
    .error "Insufficient transaction history for forecasting (minimum 30 days)"
  else
    let hist := window.map (fun t =>
      ({ amount := signedAmount t, date := t.date, type := t.type,
         category := t.category } : HistPoint))
    let fd := predictor hist
    let f : Forecast :=
      { userId := uid, forecastType := ftype, startDate := now,
        predictions := fd.predictions, riskIndicator := fd.riskIndicator,
        riskScore := fd.riskScore }
    .ok (store ++ [f], f)

/-- The distinct occurrence dates of a transaction window — the "days of
history" the claim counts. -/
def distinctDates (w : List Txn) : List Date := (w.map (fun t => t.date)).dedup

/-- A predictor stub for concrete runs. -/
def trivialPredictor : List HistPoint → ForecastData :=
  fun _ => { predictions := [], riskIndicator := "low", riskScore := 0 }

/-- A 90-day window holding 58 transactions spread over only 29 distinct
days (two per day, 2024-01-01 .. 2024-01-29). -/
def c4Window : List Txn :=
  (List.range 29).flatMap (fun i =>
    [{ id := 2 * i, userId := 7, type := TxnType.expense, amount := 10,
       description := "a", category := "Food", categorySource := "user",
       date := { year := 2024, month := 1, day := i + 1 }, createdAt := 2 * i },
     { id := 2 * i + 1, userId := 7, type := TxnType.expense, amount := 5,
       description := "b", category := "Food", categorySource := "user",
       date := { year := 2024, month := 1, day := i + 1 }, createdAt := 2 * i + 1 }])

/-- Counterexample to claim C4 as stated: a window with only 29 days of
transaction history (29 distinct dates) does NOT fail with the
insufficient-history error — generation proceeds, because the source
guard counts transactions (58 here), not days. -/
theorem C4_counterexample_29_days_proceeds :
    (distinctDates c4Window).length = 29 ∧
      (generateAndStore 7 c4Window trivialPredictor
        { year := 2024, month := 4, day := 1 } [] "30day").isOk = true := by
  decide

/-- Claim C4 as amended: generation fails with the insufficient-history
error exactly when the window holds fewer than 30 transactions; with 30
or more it calls the Forecast Predictor on the signed history and
appends one new Forecast record dated now to the store. -/
theorem C4_amended_threshold_is_30_transactions (uid : ℕ) (window : List Txn)
    (predictor : List HistPoint → ForecastData) (now : Date)
    (store : List Forecast) (ftype : String) :
    ((∃ e, generateAndStore uid window predictor now store ftype = .error e) ↔
        window.length < 30) ∧
    (∀ res, generateAndStore uid window predictor now store ftype = .ok res →
        res.1 = store ++ [res.2] ∧ res.2.startDate = now ∧ res.2.forecastType = ftype ∧
        res.2.predictions = (predictor (window.map (fun t =>
          ({ amount := signedAmount t, date := t.date, type := t.type,
             category := t.category } : HistPoint)))).predictions) := by
  unfold generateAndStore
  by_cases hlen : window.length < 30
  · simp [hlen]
  · simp [hlen]

/-- A named sub-score of a health record. -/
structure SubScore where
  name : String
  score : ℚ
  weight : ℚ
deriving DecidableEq, Repr

/-- Payload of the external Health Predictor
(`mlService.computeHealthScore` rethrows its errors). -/
structure HealthData where
  overallScore : ℚ
  subScores : List SubScore
  explanation : String
  metrics : List (String × ℚ)
  recommendations : List String
deriving DecidableEq, Repr

/-- A stored Health Score record
(src/backend/src/models/FinancialHealth.js). -/
structure HealthRecord where
  userId : ℕ
  date : Date
  overallScore : ℚ
  subScores : List SubScore
  explanation : String
  metrics : List (String × ℚ)
  recommendations : List String
deriving DecidableEq, Repr

/-- Embedding of `HealthScoreService.computeAndStore`
(src/backend/src/services/healthScoreService.js lines 13-67): delegate
to the Health Predictor; on failure rethrow (the catch logs and
rethrows) without writing; on success append one new record dated now.
The first component is what the caller sees, the second the store after
the call. -/
def computeAndStore (uid : ℕ) (pred : Except String HealthData) (now : Date)
    (store : List HealthRecord) :
    Except String HealthRecord × List HealthRecord :=
  match pred with
  | .error e => (.error e, store)
  | .ok h =>
    let r : HealthRecord :=
      { userId := uid, date := now, overallScore := h.overallScore,
        subScores := h.subScores, explanation := h.explanation,
        metrics := h.metrics, recommendations := h.recommendations }
    (.ok r, store ++ [r])

/-- Claim C8: health score computation is atomic with respect to
failure.  Prior records are never mutated (the store after any call
still starts with exactly the old records), and when the Health
Predictor fails the error propagates to the caller and the store is
unchanged — no record is persisted and no silent fallback happens. -/
theorem C8_health_failure_atomic (uid : ℕ) (pred : Except String HealthData)
    (now : Date) (store : List HealthRecord) :
    ((computeAndStore uid pred now store).2.take store.length = store) ∧
    (∀ e, pred = .error e →
        computeAndStore uid pred now store = (.error e, store)) := by
  cases pred with
  | error e => simp [computeAndStore]
  | ok h =>
    constructor
    · simp [computeAndStore, List.take_left]
    · intro e he
      exact absurd he (by simp)

/-- Goal type enum (src/backend/src/models/Goal.js). -/
inductive GoalType where
  | spending_cap : GoalType
  | savings_target : GoalType
  | category_limit : GoalType
  | custom : GoalType
deriving DecidableEq, Repr

/-- Goal status enum. -/
inductive GoalStatus where
  | active : GoalStatus
  | completed : GoalStatus
  | failed : GoalStatus
  | paused : GoalStatus
deriving DecidableEq, Repr

/-- A JS number as produced by the progress formula: a rational, NaN, or
a signed infinity (division by zero produces these in JS). -/
inductive JsNum where
  | nan : JsNum
  | posInf : JsNum
  | negInf : JsNum
  | val : ℚ → JsNum
deriving DecidableEq, Repr

/-- JS division of two (finite) numbers: `0/0 = NaN`, `x/0 = ±Infinity`
for nonzero x, ordinary division otherwise. -/
def jsDiv (a b : ℚ) : JsNum :=
  if b = 0 then
    (if a = 0 then .nan else if 0 < a then .posInf else .negInf)
  else .val (a / b)

/-- JS multiplication of the division result by a finite constant. -/
def jsMul (x : JsNum) (c : ℚ) : JsNum :=
  match x with
  | .nan => .nan
  | .posInf => if c = 0 then .nan else if 0 < c then .posInf else .negInf
  | .negInf => if c = 0 then .nan else if 0 < c then .negInf else .posInf
  | .val q => .val (q * c)

/-- JS `Math.min(x, c)` for a finite c: NaN propagates. -/
def jsMin (x : JsNum) (c : ℚ) : JsNum :=
  match x with
  | .nan => .nan
  | .posInf => .val c
  | .negInf => .negInf
  | .val q => .val (min q c)

/-- JS comparison `x >= 100` (false for NaN). -/
def jsGe100 (x : JsNum) : Bool :=
  match x with
  | .nan => false
  | .posInf => true
  | .negInf => false
  | .val q => decide (100 ≤ q)

/-- A Goal row (src/backend/src/models/Goal.js).  The schema has no
category field: a goal cannot name a category. -/
structure Goal where
  userId : ℕ
  type : GoalType
  targetValue : ℚ
  currentValue : ℚ
  startDate : Date
  endDate : Date
  status : GoalStatus
  progress : JsNum
deriving DecidableEq, Repr

/-- Embedding of `Transaction.getByDateRange(userId, startDate, endDate)`: the
owner's transactions with `$gte`/`$lte` (inclusive) date bounds.  The
query's `sort({date: -1})` is dropped here: every consumer below reduces
the list with a commutative sum, so order is immaterial. -/
def getByDateRange (txns : List Txn) (uid : ℕ) (s e : Date) : List Txn :=
  txns.filter (fun t => t.userId = uid ∧ dateLe s t.date ∧ dateLe t.date e)

/-- The `let currentValue` computation of `GoalService.updateProgress`
(src/backend/src/services/goalService.js lines 260-296), before the
`Math.max(currentValue, 0)` floor: `spending_cap` and `category_limit`
share one branch summing every expense in the window (no category
filter), `savings_target` takes income minus expenses, and `custom`
falls through leaving the initial 0. -/
def rawCurrentValue (uid : ℕ) (gty : GoalType) (s e : Date)
    (txns : List Txn) : ℚ :=
  let window := getByDateRange txns uid s e
  if gty = GoalType.spending_cap ∨ gty = GoalType.category_limit then
    (window.filter (fun t => t.type = TxnType.expense)).foldl
      (fun sum t => sum + t.amount) 0
  else if gty = GoalType.savings_target then
    (window.filter (fun t => t.type = TxnType.income)).foldl
      (fun sum t => sum + t.amount) 0 -
    (window.filter (fun t => t.type = TxnType.expense)).foldl
      (fun sum t => sum + t.amount) 0
  else 0

/-- The in-memory mutation of `GoalService.updateProgress`:
`goal.currentValue = Math.max(currentValue, 0)`,
`goal.progress = Math.min((goal.currentValue / goal.targetValue) * 100, 100)`
under JS number semantics, and the one automatic state transition
`active → completed` when the computed progress reaches 100. -/
def applyProgress (g : Goal) (txns : List Txn) : Goal :=
  let cv := max (rawCurrentValue g.userId g.type g.startDate g.endDate txns) 0
  let prog := jsMin (jsMul (jsDiv cv g.targetValue) 100) 100
  { g with currentValue := cv, progress := prog,
           status := if jsGe100 prog ∧ g.status = GoalStatus.active then
               GoalStatus.completed
             else g.status }

/-- Mongoose validation on `goal.save()`: `progress` has `min: 0` and
`max: 100` (NaN and the infinities fail both-way comparison),
`currentValue` and `targetValue` have `min: 0`. -/
def validGoalSave (g : Goal) : Bool :=
  (match g.progress with
   | .val q => decide (0 ≤ q) && decide (q ≤ 100)
   | _ => false) &&
  decide (0 ≤ g.currentValue) && decide (0 ≤ g.targetValue)

/-- Embedding of `GoalService.updateProgress` end to end: mutate, then `save()` with
schema validation. -/
def updateProgress (g : Goal) (txns : List Txn) : Except String Goal :=
  let g2 := applyProgress g txns
  if validGoalSave g2 then .ok g2 else .error "ValidationError: goal"

/-- The value the spec assigns to a `category_limit` goal: the sum of
expense amounts in the window restricted to a given category.  (Spec
comparison definition: the Goal schema itself has no category field, so
the goal's own category does not exist; this takes the candidate
category as a parameter.) -/
def specCategoryLimitValue (txns : List Txn) (uid : ℕ) (s e : Date)
    (c : String) : ℚ :=
  (((getByDateRange txns uid s e).filter
      (fun t => t.type = TxnType.expense ∧ t.category = c)).map
    (fun t => t.amount)).sum

/-- Two expenses in January 2024 in different categories. -/
def c5Txns : List Txn :=
  [{ id := 0, userId := 7, type := TxnType.expense, amount := 30,
     description := "a", category := "Food", categorySource := "user",
     date := { year := 2024, month := 1, day := 10 }, createdAt := 0 },
   { id := 1, userId := 7, type := TxnType.expense, amount := 20,
     description := "b", category := "Travel", categorySource := "user",
     date := { year := 2024, month := 1, day := 20 }, createdAt := 1 }]

/-- A category_limit goal over January 2024. -/
def c5CatGoal : Goal :=
  { userId := 7, type := GoalType.category_limit, targetValue := 100,
    currentValue := 0, startDate := { year := 2024, month := 1, day := 1 },
    endDate := { year := 2024, month := 1, day := 31 },
    status := GoalStatus.active, progress := JsNum.val 0 }

/-- A custom goal with a caller-supplied currentValue of 42. -/
def c5CustomGoal : Goal :=
  { userId := 7, type := GoalType.custom, targetValue := 100,
    currentValue := 42, startDate := { year := 2024, month := 1, day := 1 },
    endDate := { year := 2024, month := 1, day := 31 },
    status := GoalStatus.active, progress := JsNum.val 42 }

/-- Counterexample to claim C5: for the category_limit goal the engine
computes currentValue 50 = 30 + 20, summing both categories, while the
spec's category-filtered value is 30 for Food and 20 for Travel — no
category gives 50; and for the custom goal the engine overwrites the
caller-supplied currentValue 42 with 0 instead of leaving it. -/
theorem C5_counterexample_category_limit_unfiltered_custom_reset :
    (applyProgress c5CatGoal c5Txns).currentValue = 50 ∧
    specCategoryLimitValue c5Txns 7 { year := 2024, month := 1, day := 1 }
      { year := 2024, month := 1, day := 31 } "Food" = 30 ∧
    specCategoryLimitValue c5Txns 7 { year := 2024, month := 1, day := 1 }
      { year := 2024, month := 1, day := 31 } "Travel" = 20 ∧
    c5CustomGoal.currentValue = 42 ∧
    (applyProgress c5CustomGoal c5Txns).currentValue = 0 := by
  refine ⟨?_, ?_, ?_, ?_, ?_⟩ <;>
    norm_num +decide [applyProgress, rawCurrentValue, getByDateRange,
      specCategoryLimitValue, c5Txns, c5CatGoal, c5CustomGoal, dateLe, dateLt]

/-- Sum of amounts of a transaction list (the JS
`reduce((sum, t) => sum + t.amount, 0)` as a mapped sum). -/
def sumAmounts (ts : List Txn) : ℚ := (ts.map (fun t => t.amount)).sum

/-- The JS reduce equals the mapped sum. -/
theorem foldl_amount_eq_sumAmounts (ts : List Txn) :
    ts.foldl (fun sum t => sum + t.amount) 0 = sumAmounts ts := by
  suffices h : ∀ q, ts.foldl (fun sum t => sum + t.amount) q = q + sumAmounts ts by
    simpa using h 0
  induction ts with
  | nil => intro q; simp [sumAmounts]
  | cons t ts ih => intro q; simp [sumAmounts, ih, add_assoc]

/-- Claim C5 as amended: what `updateProgress` actually assigns:
`spending_cap` and `category_limit` both get the unfiltered sum of
expense amounts in the window, `savings_target` gets income minus
expenses, `custom` gets 0, each floored at 0 by `Math.max`. -/
theorem C5_amended_currentValue_characterization (g : Goal) (txns : List Txn) :
    (applyProgress g txns).currentValue =
      max
        (match g.type with
         | GoalType.spending_cap =>
             sumAmounts ((getByDateRange txns g.userId g.startDate g.endDate).filter
               (fun t => t.type = TxnType.expense))
         | GoalType.category_limit =>
             sumAmounts ((getByDateRange txns g.userId g.startDate g.endDate).filter
               (fun t => t.type = TxnType.expense))
         | GoalType.savings_target =>
             sumAmounts ((getByDateRange txns g.userId g.startDate g.endDate).filter
               (fun t => t.type = TxnType.income)) -
             sumAmounts ((getByDateRange txns g.userId g.startDate g.endDate).filter
               (fun t => t.type = TxnType.expense))
         | GoalType.custom => 0) 0 := by
  cases hty : g.type <;>
    simp [applyProgress, rawCurrentValue, hty, foldl_amount_eq_sumAmounts]

/-- A goal whose targetValue is 0 (the schema and the route both allow
it: `targetValue` has `min: 0`).  Its type is custom, so the engine
recomputes currentValue as 0. -/
def c6Goal : Goal :=
  { userId := 7, type := GoalType.custom, targetValue := 0,
    currentValue := 5, startDate := { year := 2024, month := 1, day := 1 },
    endDate := { year := 2024, month := 12, day := 31 },
    status := GoalStatus.active, progress := JsNum.val 0 }

/-- Counterexample to claim C6: with currentValue and targetValue both
non-negative (currentValue becomes 0, targetValue is 0), the computed
progress is `0/0 * 100 = NaN`, which is not a number in [0, 100]; the
subsequent save then fails the progress range validators, so the call
errors instead of yielding a goal. -/
theorem C6_counterexample_zero_target_gives_nan :
    (applyProgress c6Goal []).progress = JsNum.nan ∧
      (updateProgress c6Goal []).isOk = false := by
  refine ⟨?_, ?_⟩ <;>
    norm_num +decide [applyProgress, updateProgress, rawCurrentValue,
      getByDateRange, jsDiv, jsMul, jsMin, jsGe100, validGoalSave, c6Goal]

/-- Claim C6 as amended: after the progress computation, whenever the
goal's targetValue is non-negative and currentValue and targetValue are
not both zero, the progress is a real number q with
0 ≤ q ≤ 100 — clamped even when currentValue exceeds targetValue
(targetValue 0 with positive currentValue gives Infinity, clamped to
100 by Math.min). -/
theorem C6_amended_progress_in_range (g : Goal) (txns : List Txn)
    (htv : 0 ≤ g.targetValue)
    (hnz : ¬ ((applyProgress g txns).currentValue = 0 ∧ g.targetValue = 0)) :
    ∃ q, (applyProgress g txns).progress = JsNum.val q ∧ 0 ≤ q ∧ q ≤ 100 := by
  have hcv : (applyProgress g txns).currentValue =
      max (rawCurrentValue g.userId g.type g.startDate g.endDate txns) 0 := by
    simp [applyProgress]
  have hprog : (applyProgress g txns).progress =
      jsMin (jsMul (jsDiv
        (max (rawCurrentValue g.userId g.type g.startDate g.endDate txns) 0)
        g.targetValue) 100) 100 := by
    simp [applyProgress]
  have hcv0 : 0 ≤ max (rawCurrentValue g.userId g.type g.startDate g.endDate txns) 0 :=
    le_max_right _ _
  by_cases htv0 : g.targetValue = 0
  · have hcvne : max (rawCurrentValue g.userId g.type g.startDate g.endDate txns) 0 ≠ 0 := by
      intro h0
      exact hnz ⟨by rw [hcv, h0], htv0⟩
    have hcvpos : 0 < max (rawCurrentValue g.userId g.type g.startDate g.endDate txns) 0 :=
      lt_of_le_of_ne hcv0 (Ne.symm hcvne)
    refine ⟨100, ?_, by norm_num, le_refl 100⟩
    rw [hprog]
    simp [jsDiv, htv0, hcvne, hcvpos, jsMul, jsMin]
  · have htvpos : 0 < g.targetValue := lt_of_le_of_ne htv (Ne.symm htv0)
    refine ⟨min (max (rawCurrentValue g.userId g.type g.startDate g.endDate txns) 0
        / g.targetValue * 100) 100, ?_, ?_, min_le_right _ _⟩
    · rw [hprog]
      simp [jsDiv, htv0, jsMul, jsMin]
    · have hq : 0 ≤ max (rawCurrentValue g.userId g.type g.startDate g.endDate txns) 0
          / g.targetValue * 100 := by positivity
      exact le_min hq (by norm_num)

/-- A well-formed goal for the C6 witness: custom, targetValue 100. -/
def c6OkGoal : Goal :=
  { userId := 7, type := GoalType.custom, targetValue := 100,
    currentValue := 5, startDate := { year := 2024, month := 1, day := 1 },
    endDate := { year := 2024, month := 12, day := 31 },
    status := GoalStatus.active, progress := JsNum.val 5 }

/-- Witness for the amended C6 at a concrete goal. -/
theorem C6_witness :
    ∃ q, (applyProgress c6OkGoal []).progress = JsNum.val q ∧ 0 ≤ q ∧ q ≤ 100 :=
  C6_amended_progress_in_range c6OkGoal []
    (by norm_num [c6OkGoal])
    (fun h => absurd h.2 (by norm_num [c6OkGoal]))

/-- The progress computation is idempotent on goals: recomputing on the
result changes nothing (the recomputation reads only fields the first
pass preserved, and the `active → completed` transition cannot fire
twice). -/
theorem applyProgress_idem (g : Goal) (txns : List Txn) :
    applyProgress (applyProgress g txns) txns = applyProgress g txns := by
  obtain ⟨u, ty, tv, cv0, sd, ed, st, pr⟩ := g
  by_cases hc : jsGe100 (jsMin (jsMul (jsDiv
      (max (rawCurrentValue u ty sd ed txns) 0) tv) 100) 100) ∧
      st = GoalStatus.active
  · simp [applyProgress, hc]
  · simp [applyProgress, hc]

/-- Claim C7: `updateProgress` is idempotent.  If a call succeeds and
stores goal g2, a second call with the same ledger succeeds and stores
g2 again — in particular currentValue and progress are unchanged. -/
theorem C7_updateProgress_idempotent (g g2 : Goal) (txns : List Txn)
    (h : updateProgress g txns = .ok g2) :
    updateProgress g2 txns = .ok g2 := by
  unfold updateProgress at h
  by_cases hv : validGoalSave (applyProgress g txns)
  · simp [hv] at h
    subst h
    unfold updateProgress
    rw [applyProgress_idem]
    simp [hv]
  · simp [hv] at h

/-- Concrete starting goal for the C7 witness. -/
def c7Goal : Goal :=
  { userId := 7, type := GoalType.custom, targetValue := 100,
    currentValue := 3, startDate := { year := 2024, month := 1, day := 1 },
    endDate := { year := 2024, month := 1, day := 31 },
    status := GoalStatus.active, progress := JsNum.val 3 }

/-- What the first `updateProgress` call stores for `c7Goal`. -/
def c7Stored : Goal :=
  { userId := 7, type := GoalType.custom, targetValue := 100,
    currentValue := 0, startDate := { year := 2024, month := 1, day := 1 },
    endDate := { year := 2024, month := 1, day := 31 },
    status := GoalStatus.active, progress := JsNum.val 0 }

/-- Witness for C7: a second call on the concretely stored goal returns
it unchanged. -/
theorem C7_witness : updateProgress c7Stored [] = .ok c7Stored :=
  C7_updateProgress_idempotent c7Goal c7Stored []
    (by norm_num +decide [updateProgress, applyProgress, rawCurrentValue,
      getByDateRange, jsDiv, jsMul, jsMin, jsGe100, validGoalSave,
      c7Goal, c7Stored])

/-- The query order of `findByUserId`'s `sort({date: -1, createdAt: -1})`:
`a` may precede `b` when a's date is later, or the dates are equal and
a's creation order is not earlier. -/
def txKeyLe (a b : Txn) : Prop :=
  dateLt b.date a.date ∨ (b.date = a.date ∧ b.createdAt ≤ a.createdAt)

instance (a b : Txn) : Decidable (txKeyLe a b) := by
  unfold txKeyLe; infer_instance

/-- Dates compare trichotomously. -/
theorem dateLt_trichotomy (a b : Date) : dateLt a b ∨ a = b ∨ dateLt b a := by
  obtain ⟨y1, m1, d1⟩ := a
  obtain ⟨y2, m2, d2⟩ := b
  simp only [dateLt, Date.mk.injEq]
  omega

/-- The strict date order is transitive. -/
theorem dateLt_trans {a b c : Date} (h1 : dateLt a b) (h2 : dateLt b c) :
    dateLt a c := by
  obtain ⟨y1, m1, d1⟩ := a
  obtain ⟨y2, m2, d2⟩ := b
  obtain ⟨y3, m3, d3⟩ := c
  simp only [dateLt] at h1 h2 ⊢
  omega

instance : IsTotal Txn txKeyLe := by
  constructor
  intro a b
  rcases dateLt_trichotomy a.date b.date with h | h | h
  · exact Or.inr (Or.inl h)
  · rcases Nat.le_total b.createdAt a.createdAt with hc | hc
    · exact Or.inl (Or.inr ⟨h.symm, hc⟩)
    · exact Or.inr (Or.inr ⟨h, hc⟩)
  · exact Or.inl (Or.inl h)

instance : IsTrans Txn txKeyLe := by
  constructor
  intro a b c hab hbc
  rcases hab with h1 | ⟨he1, hc1⟩
  · rcases hbc with h2 | ⟨he2, hc2⟩
    · exact Or.inl (dateLt_trans h2 h1)
    · exact Or.inl (he2 ▸ h1)
  · rcases hbc with h2 | ⟨he2, hc2⟩
    · exact Or.inl (he1 ▸ h2)
    · exact Or.inr ⟨he2.trans he1, le_trans hc2 hc1⟩

/-- Query filters of `TransactionRepository.findByUserId`
(src transaction repository lines 89-132): all optional. -/
structure Filters where
  type : Option TxnType
  category : Option String
  startDate : Option Date
  endDate : Option Date
  page : Option ℕ
  limit : Option ℕ
deriving DecidableEq, Repr

/-- The empty filter set. -/
def emptyFilters : Filters :=
  { type := none, category := none, startDate := none, endDate := none,
    page := none, limit := none }

/-- Pagination metadata returned alongside the items. -/
structure Pagination where
  page : ℕ
  limit : ℕ
  total : ℕ
  pages : ℕ
deriving DecidableEq, Repr

/-- The mongo query built by `findByUserId`: owner plus the optional
direction, category and inclusive ($gte/$lte) date-range restrictions. -/
def matchesQuery (uid : ℕ) (f : Filters) (t : Txn) : Bool :=
  decide (t.userId = uid) &&
  (match f.type with | some ty => decide (t.type = ty) | none => true) &&
  (match f.category with | some c => decide (t.category = c) | none => true) &&
  (match f.startDate with | some d => decide (dateLe d t.date) | none => true) &&
  (match f.endDate with | some d => decide (dateLe t.date d) | none => true)

/-- Embedding of `TransactionRepository.findByUserId`: filter, sort by date then
createdAt descending, paginate with `parseInt(filters.page) || 1` and
`parseInt(filters.limit) || 50` (JS truthiness: 0 falls back to the
default), and return items plus {page, limit, total, pages} with
`pages = Math.ceil(total / limit)`. -/
def findByUserId (db : List Txn) (uid : ℕ) (f : Filters) :
    List Txn × Pagination :=
  let q := db.filter (matchesQuery uid f)
  let page := match f.page with | some p => if p = 0 then 1 else p | none => 1
  let limit := match f.limit with | some n => if n = 0 then 50 else n | none => 50
  let skip := (page - 1) * limit
  let sorted := List.insertionSort txKeyLe q
  ((sorted.drop skip).take limit,
   { page := page, limit := limit, total := q.length,
     pages := (q.length + limit - 1) / limit })

/-- An element whose index falls inside the [s, s+k) window of a list is
a member of the corresponding drop/take page. -/
theorem mem_drop_take_of_index {α : Type} (l : List α) (i s k : ℕ)
    (hi : i < l.length) (h1 : s ≤ i) (h2 : i < s + k) :
    l[i] ∈ (l.drop s).take k := by
  rcases Nat.exists_eq_add_of_le h1 with ⟨j, rfl⟩
  have hj2 : j < (l.drop s).length := by
    rw [List.length_drop]; omega
  have hjt : j < ((l.drop s).take k).length := by
    rw [List.length_take]; omega
  have hgt : ((l.drop s).take k)[j] = l[s + j] := by
    rw [List.getElem_take, List.getElem_drop]
  exact hgt ▸ List.getElem_mem hjt

/-- Claim C9: with an empty filter set, `findByUserId` applies no
restriction beyond ownership: the reported total counts all of the
owner's transactions, the metadata is (page 1, page size 50, total,
ceil(total/50) pages), every transaction of the owner appears on some
page, the returned items are sorted by date descending then creation
order descending, and with any filters the returned items respect the
direction, category and inclusive date-range restrictions. -/
theorem C9_findByUserId_empty_filters_returns_all (db : List Txn) (uid : ℕ) :
    ((findByUserId db uid emptyFilters).2.total
        = (db.filter (fun t => t.userId = uid)).length) ∧
    ((findByUserId db uid emptyFilters).2.page = 1) ∧
    ((findByUserId db uid emptyFilters).2.limit = 50) ∧
    ((findByUserId db uid emptyFilters).2.pages
        = ((db.filter (fun t => t.userId = uid)).length + 49) / 50) ∧
    (∀ t, t ∈ db → t.userId = uid →
      ∃ p, t ∈ (findByUserId db uid
        { emptyFilters with page := some p }).1) ∧
    (List.Sorted txKeyLe (findByUserId db uid emptyFilters).1) ∧
    (∀ f t, t ∈ (findByUserId db uid f).1 →
      t.userId = uid ∧
      (∀ ty, f.type = some ty → t.type = ty) ∧
      (∀ c, f.category = some c → t.category = c) ∧
      (∀ d, f.startDate = some d → dateLe d t.date) ∧
      (∀ d, f.endDate = some d → dateLe t.date d)) := by
  have hq : db.filter (matchesQuery uid emptyFilters)
      = db.filter (fun t => t.userId = uid) := by
    apply List.filter_congr
    intro t ht
    simp [matchesQuery, emptyFilters]
  refine ⟨?_, ?_, ?_, ?_, ?_, ?_, ?_⟩
  · simp only [findByUserId]
    rw [hq]
  · simp [findByUserId, emptyFilters]
  · simp [findByUserId, emptyFilters]
  · simp only [findByUserId]
    rw [hq]
    simp only [emptyFilters]
    omega
  · intro t htdb htuid
    have htq : t ∈ db.filter (matchesQuery uid emptyFilters) := by
      rw [hq]
      simp [List.mem_filter, htdb, htuid]
    have hts : t ∈ List.insertionSort txKeyLe
        (db.filter (matchesQuery uid emptyFilters)) := by
      simpa using htq
    obtain ⟨i, hi, hget⟩ := List.mem_iff_getElem.mp hts
    refine ⟨i / 50 + 1, ?_⟩
    have hpage : matchesQuery uid { emptyFilters with page := some (i / 50 + 1) }
        = matchesQuery uid emptyFilters := rfl
    simp only [findByUserId, hpage]
    have hmod := Nat.div_add_mod i 50
    have hlt : i % 50 < 50 := Nat.mod_lt i (by norm_num)
    have h1 : (i / 50 + 1 - 1) * 50 ≤ i := by omega
    have h2 : i < (i / 50 + 1 - 1) * 50 + 50 := by omega
    exact hget ▸ mem_drop_take_of_index _ i _ 50 hi h1 h2
  · simp only [findByUserId]
    apply List.Pairwise.sublist
    · exact List.Sublist.trans (List.take_sublist _ _) (List.drop_sublist _ _)
    · exact List.sorted_insertionSort txKeyLe _
  · intro f t htm
    simp only [findByUserId] at htm
    have htq : t ∈ db.filter (matchesQuery uid f) := by
      have := List.mem_of_mem_drop (List.mem_of_mem_take htm)
      simpa using this
    have hmq : matchesQuery uid f t = true := (List.mem_filter.mp htq).2
    simp only [matchesQuery, Bool.and_eq_true, decide_eq_true_eq] at hmq
    obtain ⟨⟨⟨⟨h1, h2⟩, h3⟩, h4⟩, h5⟩ := hmq
    refine ⟨h1, ?_, ?_, ?_, ?_⟩
    · intro ty hty; rw [hty] at h2; simpa using h2
    · intro c hc; rw [hc] at h3; simpa using h3
    · intro d hd; rw [hd] at h4; simpa using h4
    · intro d hd; rw [hd] at h5; simpa using h5

/-- The contribution of one transaction to one ledger bucket. -/
def contribution (t : Txn) (uid : ℕ) (c : String) (m y : ℕ) : ℚ :=
  if inBucket t uid c m y then t.amount else 0

/-- The spec's ledger-consistency invariant: every Budget Ledger row's
`spent` equals the bucket sum of the existing transactions, and every
stored amount is non-negative (schema `min: 0`). -/
def LedgerInv (s : St) : Prop :=
  (∀ uid c m y, s.ledger uid c m y = bucketSum s.txns uid c m y) ∧
  (∀ t ∈ s.txns, 0 ≤ t.amount)

/-- No two stored transactions share an id (mongo object ids). -/
def IdsUnique (s : St) : Prop := s.txns.Pairwise (fun a b => a.id ≠ b.id)

theorem bucketSum_cons (t : Txn) (txns : List Txn) (uid : ℕ) (c : String)
    (m y : ℕ) :
    bucketSum (t :: txns) uid c m y =
      contribution t uid c m y + bucketSum txns uid c m y := by
  by_cases h : inBucket t uid c m y <;>
    simp [bucketSum, contribution, List.filter_cons, h]

theorem bucketSum_append (l1 l2 : List Txn) (uid : ℕ) (c : String) (m y : ℕ) :
    bucketSum (l1 ++ l2) uid c m y =
      bucketSum l1 uid c m y + bucketSum l2 uid c m y := by
  simp [bucketSum, List.filter_append]

theorem bucketSum_singleton (t : Txn) (uid : ℕ) (c : String) (m y : ℕ) :
    bucketSum [t] uid c m y = contribution t uid c m y := by
  by_cases h : inBucket t uid c m y <;>
    simp [bucketSum, contribution, List.filter_cons, h]

theorem bucketSum_nonneg (txns : List Txn)
    (h : ∀ t ∈ txns, 0 ≤ t.amount) (uid : ℕ) (c : String) (m y : ℕ) :
    0 ≤ bucketSum txns uid c m y := by
  apply List.sum_nonneg
  intro x hx
  obtain ⟨t, ht, rfl⟩ := List.mem_map.mp hx
  exact h t (List.mem_filter.mp ht).1

/-- A member's amount is at most its bucket's sum (amounts non-negative). -/
theorem le_bucketSum_of_mem {txns : List Txn} {t : Txn}
    (h : ∀ u ∈ txns, 0 ≤ u.amount) (ht : t ∈ txns) {uid : ℕ} {c : String}
    {m y : ℕ} (hb : inBucket t uid c m y) :
    t.amount ≤ bucketSum txns uid c m y := by
  induction txns with
  | nil => simp at ht
  | cons a l ih =>
    rw [bucketSum_cons]
    rcases List.mem_cons.mp ht with rfl | hmem
    · have h0 : 0 ≤ bucketSum l uid c m y :=
        bucketSum_nonneg l (fun u hu => h u (List.mem_cons_of_mem _ hu)) uid c m y
      simp [contribution, hb]
      linarith
    · have h0 : 0 ≤ contribution a uid c m y := by
        unfold contribution
        split
        · exact h a (List.mem_cons_self a l)
        · exact le_refl 0
      have := ih (fun u hu => h u (List.mem_cons_of_mem _ hu)) hmem
      linarith

/-- Characterization of a successful `updateSpent` save. -/
theorem updateSpent_ok_elim {l : Ledger} {uid : ℕ} {c : String} {m y : ℕ}
    {amt : ℚ} {l2 : Ledger}
    (h : updateSpent l uid c m y amt = .ok l2) :
    (0 ≤ l uid c m y + amt) ∧
    ∀ u2 c2 m2 y2, l2 u2 c2 m2 y2 =
      if u2 = uid ∧ c2 = c ∧ m2 = m ∧ y2 = y then l uid c m y + amt
      else l u2 c2 m2 y2 := by
  by_cases hneg : l uid c m y + amt < 0
  · simp [updateSpent, hneg] at h
  · push_neg at hneg
    simp only [updateSpent] at h
    rw [if_neg (not_lt.mpr hneg)] at h
    simp only [Except.ok.injEq] at h
    subst h
    exact ⟨hneg, fun u2 c2 m2 y2 => rfl⟩

/-- Removing the one transaction with a given id subtracts exactly its
contribution from every bucket. -/
theorem bucketSum_remove (txns : List Txn) (id : ℕ) (t : Txn)
    (huniq : txns.Pairwise (fun a b => a.id ≠ b.id))
    (hfind : txns.find? (fun u => u.id = id) = some t)
    (uid : ℕ) (c : String) (m y : ℕ) :
    bucketSum (txns.filter (fun u => ¬ u.id = id)) uid c m y =
      bucketSum txns uid c m y - contribution t uid c m y := by
  induction txns with
  | nil => simp at hfind
  | cons a l ih =>
    by_cases ha : a.id = id
    · rw [List.find?_cons_of_pos _ (by simp [ha])] at hfind
      obtain rfl : a = t := by simpa using hfind
      have htail : ∀ b ∈ l, b.id ≠ id := by
        intro b hb
        have := (List.pairwise_cons.mp huniq).1 b hb
        omega
      have hstep : (a :: l).filter (fun u => ¬ u.id = id) = l := by
        simp [List.filter_cons, ha]
        exact fun b hb => htail b hb
      rw [hstep, bucketSum_cons]
      ring
    · rw [List.find?_cons_of_neg _ (by simp [ha])] at hfind
      have hstep : (a :: l).filter (fun u => ¬ u.id = id)
          = a :: l.filter (fun u => ¬ u.id = id) := by
        simp [List.filter_cons, ha]
      rw [hstep, bucketSum_cons, bucketSum_cons,
        ih (List.Pairwise.of_cons huniq) hfind]
      ring

/-- Patching the one transaction with a given id moves every bucket sum
by exactly the difference of its old and new contributions. -/
theorem bucketSum_map_patch (txns : List Txn) (id : ℕ) (t : Txn) (p : Patch)
    (huniq : txns.Pairwise (fun a b => a.id ≠ b.id))
    (hfind : txns.find? (fun u => u.id = id) = some t)
    (uid : ℕ) (c : String) (m y : ℕ) :
    bucketSum (txns.map (fun u => if u.id = id then applyPatch u p else u)) uid c m y =
      bucketSum txns uid c m y - contribution t uid c m y +
        contribution (applyPatch t p) uid c m y := by
  induction txns with
  | nil => simp at hfind
  | cons a l ih =>
    by_cases ha : a.id = id
    · rw [List.find?_cons_of_pos _ (by simp [ha])] at hfind
      obtain rfl : a = t := by simpa using hfind
      have htail : ∀ b ∈ l, (if b.id = id then applyPatch b p else b) = b := by
        intro b hb
        have := (List.pairwise_cons.mp huniq).1 b hb
        have hbid : ¬ b.id = id := by omega
        simp [hbid]
      rw [List.map_cons, if_pos ha,
        (List.map_congr_left htail).trans (List.map_id l),
        bucketSum_cons, bucketSum_cons]
      ring
    · rw [List.find?_cons_of_neg _ (by simp [ha])] at hfind
      rw [List.map_cons, if_neg ha, bucketSum_cons, bucketSum_cons,
        ih (List.Pairwise.of_cons huniq) hfind]
      ring

/-- A successful `getById` returns the row with the asked id, owned by
the asking user. -/
theorem getById_ok_elim {s : St} {uid id : ℕ} {t : Txn}
    (h : getById s uid id = .ok t) :
    s.txns.find? (fun u => u.id = id) = some t ∧ t.id = id ∧ t.userId = uid := by
  unfold getById at h
  rcases hfind : s.txns.find? (fun u => u.id = id) with _ | a <;>
    rw [hfind] at h <;> dsimp only at h
  · simp at h
  · by_cases ho : a.userId = uid
    · rw [if_pos ho] at h
      simp only [Except.ok.injEq] at h
      subst h
      have := List.find?_some hfind
      simp at this
      exact ⟨hfind, this, ho⟩
    · rw [if_neg ho] at h
      simp at h

/-- For an expense transaction owned by `uid`, bucket membership pins
the bucket to the transaction's own (owner, category, month, year). -/
theorem inBucket_iff_of_expense {t : Txn} {uid : ℕ}
    (hexp : t.type = TxnType.expense) (hown : t.userId = uid)
    (u : ℕ) (c : String) (m y : ℕ) :
    inBucket t u c m y ↔
      (u = uid ∧ c = t.category ∧ m = t.date.month ∧ y = t.date.year) := by
  unfold inBucket
  constructor
  · rintro ⟨h1, _, h3, h4, h5⟩
    exact ⟨h1.symm.trans hown, h3.symm, h4.symm, h5.symm⟩
  · rintro ⟨rfl, rfl, rfl, rfl⟩
    exact ⟨hown, hexp, rfl, rfl, rfl⟩

/-- Supporting theorem for the ledger invariant: `delete` preserves it.
Reverting removes exactly the deleted expense's contribution from its
bucket (no ledger change for income), matching the removal of the row. -/
theorem delete_preserves_inv (s : St) (uid id : ℕ) (s2 : St)
    (hinv : LedgerInv s) (huniq : IdsUnique s)
    (hok : delete s uid id = .ok s2) :
    LedgerInv s2 ∧ IdsUnique s2 := by
  unfold delete at hok
  rcases hget : getById s uid id with e | t <;> rw [hget] at hok <;>
    dsimp only at hok
  · simp at hok
  obtain ⟨hfind, hid, hown⟩ := getById_ok_elim hget
  by_cases hexp : t.type = TxnType.expense
  · rw [if_pos hexp] at hok
    rcases hrev : updateSpent s.ledger uid t.category t.date.month t.date.year
        (-t.amount) with e | l1 <;> rw [hrev] at hok
    · simp at hok
    simp only [Except.ok.injEq] at hok
    subst hok
    obtain ⟨_, hchar⟩ := updateSpent_ok_elim hrev
    refine ⟨⟨?_, ?_⟩, ?_⟩
    · intro u c m y
      show l1 u c m y = _
      rw [hchar u c m y,
        bucketSum_remove s.txns id t huniq hfind u c m y]
      by_cases hk : u = uid ∧ c = t.category ∧ m = t.date.month ∧ y = t.date.year
      · rw [if_pos hk]
        obtain ⟨rfl, rfl, rfl, rfl⟩ := hk
        rw [hinv.1]
        have hb : inBucket t u t.category t.date.month t.date.year :=
          ⟨hown, hexp, rfl, rfl, rfl⟩
        simp [contribution, hb]
        ring
      · rw [if_neg hk, hinv.1]
        have hb : ¬ inBucket t u c m y := fun hb =>
          hk ((inBucket_iff_of_expense hexp hown u c m y).mp hb)
        simp [contribution, hb]
    · intro u hu
      exact hinv.2 u (List.mem_of_mem_filter hu)
    · exact List.Pairwise.sublist (List.filter_sublist _) huniq
  · rw [if_neg hexp] at hok
    simp only [Except.ok.injEq] at hok
    subst hok
    refine ⟨⟨?_, ?_⟩, ?_⟩
    · intro u c m y
      show s.ledger u c m y = _
      rw [hinv.1, bucketSum_remove s.txns id t huniq hfind u c m y]
      have hb : ¬ inBucket t u c m y := fun hb => hexp hb.2.1
      simp [contribution, hb]
    · intro u hu
      exact hinv.2 u (List.mem_of_mem_filter hu)
    · exact List.Pairwise.sublist (List.filter_sublist _) huniq

/-- The built transaction carries the fresh id, the owner, and the
input amount, whatever the predictor did. -/
theorem builtTxn_fields (pred : Option Prediction) (uid : ℕ)
    (inp : CreateInput) (newId newCreatedAt : ℕ) :
    (builtTxn pred uid inp newId newCreatedAt).id = newId ∧
    (builtTxn pred uid inp newId newCreatedAt).userId = uid ∧
    (builtTxn pred uid inp newId newCreatedAt).amount = inp.amount := by
  unfold builtTxn
  by_cases h : catGiven inp.category = true
  · simp [h]
  · simp [h]
    cases pred <;> simp

/-- Supporting theorem for the ledger invariant: the persist-and-budget
tail of `create` preserves it for any transaction owned by the caller
with a fresh id. -/
theorem persistAndBudget_preserves_inv (s : St) (uid : ℕ) (t : Txn) (s2 : St)
    (hinv : LedgerInv s) (huniq : IdsUnique s)
    (hown : t.userId = uid)
    (hfresh : ∀ u ∈ s.txns, u.id ≠ t.id)
    (hok : persistAndBudget s uid t = .ok s2) :
    LedgerInv s2 ∧ IdsUnique s2 := by
  unfold persistAndBudget at hok
  by_cases hval : validTxn t = true
  · rw [if_neg (by simp [hval])] at hok
    have hvt := hval
    simp only [validTxn, Bool.and_eq_true, decide_eq_true_eq] at hvt
    have hamt : 0 ≤ t.amount := hvt.1.1
    have hcat : t.category ≠ "" := by simpa using hvt.1.2
    have huniq2 : IdsUnique { txns := s.txns ++ [t], ledger := s.ledger } := by
      unfold IdsUnique
      rw [List.pairwise_append]
      refine ⟨huniq, List.pairwise_singleton _ _, fun a ha b hb => ?_⟩
      obtain rfl : b = t := by simpa using hb
      exact hfresh a ha
    by_cases hexp : t.type = TxnType.expense ∧ t.category ≠ ""
    · rw [if_pos hexp] at hok
      rcases hins : updateSpent s.ledger uid t.category t.date.month
          t.date.year t.amount with e | l1 <;> rw [hins] at hok
      · simp at hok
      simp only [Except.ok.injEq] at hok
      subst hok
      obtain ⟨_, hchar⟩ := updateSpent_ok_elim hins
      refine ⟨⟨?_, ?_⟩, huniq2⟩
      · intro u c m y
        show l1 u c m y = _
        rw [hchar u c m y, bucketSum_append, bucketSum_singleton]
        by_cases hk : u = uid ∧ c = t.category ∧ m = t.date.month ∧ y = t.date.year
        · rw [if_pos hk]
          obtain ⟨rfl, rfl, rfl, rfl⟩ := hk
          rw [hinv.1]
          have hb : inBucket t u t.category t.date.month t.date.year :=
            ⟨hown, hexp.1, rfl, rfl, rfl⟩
          simp [contribution, hb]
        · rw [if_neg hk, hinv.1]
          have hb : ¬ inBucket t u c m y := fun hb =>
            hk ((inBucket_iff_of_expense hexp.1 hown u c m y).mp hb)
          simp [contribution, hb]
      · intro u hu
        rcases List.mem_append.mp hu with h | h
        · exact hinv.2 u h
        · obtain rfl : u = t := by simpa using h
          exact hamt
    · rw [if_neg hexp] at hok
      simp only [Except.ok.injEq] at hok
      subst hok
      have hnexp : ¬ t.type = TxnType.expense := fun he => hexp ⟨he, hcat⟩
      refine ⟨⟨?_, ?_⟩, huniq2⟩
      · intro u c m y
        show s.ledger u c m y = _
        rw [hinv.1, bucketSum_append, bucketSum_singleton]
        have hb : ¬ inBucket t u c m y := fun hb => hnexp hb.2.1
        simp [contribution, hb]
      · intro u hu
        rcases List.mem_append.mp hu with h | h
        · exact hinv.2 u h
        · obtain rfl : u = t := by simpa using h
          exact hamt
  · rw [if_pos (by simp [hval])] at hok
    simp at hok

/-- Supporting theorem for the ledger invariant: `create` preserves it
(the fresh-id hypothesis models mongo's unique object ids). -/
theorem create_preserves_inv (cats : List String) (pred : Option Prediction)
    (s : St) (uid : ℕ) (inp : CreateInput) (newId newCreatedAt : ℕ) (s2 : St)
    (hinv : LedgerInv s) (huniq : IdsUnique s)
    (hfresh : ∀ u ∈ s.txns, u.id ≠ newId)
    (hok : create cats pred s uid inp newId newCreatedAt = .ok s2) :
    LedgerInv s2 ∧ IdsUnique s2 := by
  unfold create at hok
  by_cases hvalcat : catGiven inp.category ∧ ¬ cats.contains (inp.category.getD "")
  · rw [if_pos hvalcat] at hok
    simp at hok
  · rw [if_neg hvalcat] at hok
    obtain ⟨hid, hown2, _⟩ := builtTxn_fields pred uid inp newId newCreatedAt
    exact persistAndBudget_preserves_inv s uid _ s2 hinv huniq hown2
      (fun u hu => by rw [hid]; exact hfresh u hu) hok

/-- When the patch does not set amount to 0, the stored amount agrees
with the amount the budget phase applied. -/
theorem applyPatch_amount_eq (t : Txn) (p : Patch) (hamt : p.amount ≠ some 0) :
    (applyPatch t p).amount = newAmountOf t p := by
  rcases hpa : p.amount with _ | a
  · simp [applyPatch, newAmountOf, hpa]
  · have ha : ¬ a = 0 := fun h => hamt (by rw [hpa, h])
    simp [applyPatch, newAmountOf, hpa, ha]

/-- Under the update validators, the stored category agrees with the
category the budget phase applied. -/
theorem applyPatch_category_eq (t : Txn) (p : Patch)
    (hvp : validPatch p = true) :
    (applyPatch t p).category = newCategoryOf t p := by
  rcases hpc : p.category with _ | c
  · simp [applyPatch, newCategoryOf, hpc]
  · have hc : ¬ c = "" := by
      simp only [validPatch, hpc, Bool.and_eq_true, decide_eq_true_eq] at hvp
      exact hvp.2
    simp [applyPatch, newCategoryOf, hpc, hc]

theorem applyPatch_date_eq (t : Txn) (p : Patch) :
    (applyPatch t p).date = p.date.getD t.date := rfl

theorem applyPatch_id_eq (t : Txn) (p : Patch) :
    (applyPatch t p).id = t.id := rfl

theorem applyPatch_type_eq (t : Txn) (p : Patch) :
    (applyPatch t p).type = t.type := rfl

theorem applyPatch_userId_eq (t : Txn) (p : Patch) :
    (applyPatch t p).userId = t.userId := rfl

/-- Supporting theorem for the ledger invariant: `update` preserves it
for every patch that does not set the amount to 0 and that, when it
bypasses the budget phase entirely (no truthy amount or category), does
not move the transaction's date across a month boundary.  These are
exactly the two holes C1/C2 exhibit. -/
theorem update_preserves_inv (s : St) (uid id : ℕ) (p : Patch) (s2 : St)
    (hinv : LedgerInv s) (huniq : IdsUnique s)
    (hamt : p.amount ≠ some 0)
    (hsafe : (patchCatTruthy p || patchAmtTruthy p) = true ∨
      ∀ d, p.date = some d → ∀ t ∈ s.txns, t.id = id →
        d.month = t.date.month ∧ d.year = t.date.year)
    (hok : update s uid id p = .ok s2) :
    LedgerInv s2 ∧ IdsUnique s2 := by
  unfold update at hok
  rcases hget : getById s uid id with e | t <;> rw [hget] at hok <;>
    dsimp only at hok
  · simp at hok
  obtain ⟨hfind, hid, hown⟩ := getById_ok_elim hget
  rcases hadj : budgetAdjust s uid t p with e | l2 <;> rw [hadj] at hok <;>
    dsimp only at hok
  · simp at hok
  by_cases hvp : validPatch p = true
  swap
  · rw [if_neg hvp] at hok
    simp at hok
  rw [if_pos hvp] at hok
  simp only [Except.ok.injEq] at hok
  subst hok
  have hidf : ∀ v : Txn, (if v.id = id then applyPatch v p else v).id = v.id := by
    intro v
    by_cases h : v.id = id <;> simp [h, applyPatch_id_eq]
  have hids : (s.txns.map fun v => if v.id = id then applyPatch v p else v).Pairwise
      (fun a b => a.id ≠ b.id) := by
    apply List.Pairwise.map _ _ huniq
    intro a b hab
    rw [hidf a, hidf b]
    exact hab
  have hamts : ∀ u ∈ (s.txns.map fun v => if v.id = id then applyPatch v p else v),
      0 ≤ u.amount := by
    intro u hu
    obtain ⟨v, hv, rfl⟩ := List.mem_map.mp hu
    by_cases hvid : v.id = id
    · rcases hpa : p.amount with _ | a
      · simpa [hvid, applyPatch, hpa] using hinv.2 v hv
      · have ha : 0 ≤ a := by
          simp only [validPatch, hpa, Bool.and_eq_true, decide_eq_true_eq] at hvp
          exact hvp.1
        simpa [hvid, applyPatch, hpa]
    · simpa [hvid] using hinv.2 v hv
  refine ⟨⟨?_, hamts⟩, hids⟩
  intro u c m y
  show l2 u c m y = _
  rw [bucketSum_map_patch s.txns id t p huniq hfind u c m y]
  unfold budgetAdjust at hadj
  by_cases hg : (patchCatTruthy p || patchAmtTruthy p) = true
  · rw [if_pos hg] at hadj
    dsimp only at hadj
    by_cases hexp : t.type = TxnType.expense
    · rw [if_pos hexp] at hadj
      rcases hrev : updateSpent s.ledger uid t.category t.date.month t.date.year
          (-t.amount) with e | l1 <;> rw [hrev] at hadj <;> dsimp only at hadj
      · simp at hadj
      rw [if_pos hexp] at hadj
      obtain ⟨_, hchar1⟩ := updateSpent_ok_elim hrev
      obtain ⟨_, hchar2⟩ := updateSpent_ok_elim hadj
      have hexp2 : (applyPatch t p).type = TxnType.expense := hexp
      have hown2 : (applyPatch t p).userId = uid := hown
      have hct : contribution t u c m y =
          if u = uid ∧ c = t.category ∧ m = t.date.month ∧ y = t.date.year then
            t.amount else 0 := by
        simp only [contribution, inBucket_iff_of_expense hexp hown]
      have hct2 : contribution (applyPatch t p) u c m y =
          if u = uid ∧ c = newCategoryOf t p ∧
              m = (p.date.getD t.date).month ∧ y = (p.date.getD t.date).year then
            newAmountOf t p else 0 := by
        simp only [contribution, inBucket_iff_of_expense hexp2 hown2,
          applyPatch_category_eq t p hvp, applyPatch_amount_eq t p hamt,
          applyPatch_date_eq]
      rw [hct, hct2, hchar2, hchar1, hchar1]
      simp only [hinv.1]
      split_ifs <;> simp_all <;> ring
    · rw [if_neg hexp] at hadj
      dsimp only at hadj
      rw [if_neg hexp] at hadj
      simp only [Except.ok.injEq] at hadj
      subst hadj
      have hb1 : ¬ inBucket t u c m y := fun hb => hexp hb.2.1
      have hb2 : ¬ inBucket (applyPatch t p) u c m y := fun hb => hexp hb.2.1
      rw [hinv.1]
      simp [contribution, hb1, hb2]
  · rw [if_neg hg] at hadj
    simp only [Except.ok.injEq] at hadj
    subst hadj
    simp only [Bool.or_eq_true, not_or] at hg
    obtain ⟨hgc, hga⟩ := hg
    have hpa : p.amount = none := by
      rcases hpa : p.amount with _ | a
      · rfl
      · exfalso
        rcases eq_or_ne a 0 with rfl | ha
        · exact hamt hpa
        · exact hga (by simp [patchAmtTruthy, hpa, ha])
    have hpc : p.category = none := by
      rcases hpc : p.category with _ | c
      · rfl
      · exfalso
        rcases eq_or_ne c "" with rfl | hc
        · simp only [validPatch, hpc, Bool.and_eq_true, decide_eq_true_eq] at hvp
          exact hvp.2 rfl
        · exact hgc (by simp [patchCatTruthy, hpc, hc])
    have hcon : contribution (applyPatch t p) u c m y = contribution t u c m y := by
      rcases hpd : p.date with _ | d
      · have : applyPatch t p = t := by
          simp [applyPatch, hpa, hpc, hpd]
        rw [this]
      · rcases hsafe with hl | hr
        · exfalso
          have hl2 : patchCatTruthy p = true ∨ patchAmtTruthy p = true := by
            simpa using hl
          rcases hl2 with h | h
          · exact hgc h
          · exact hga h
        · obtain ⟨hm, hy⟩ := hr d hpd t (List.mem_of_find?_eq_some hfind) hid
          unfold contribution inBucket
          simp [applyPatch, hpa, hpc, hpd, hm, hy]
    rw [hinv.1, hcon]
    ring

/-- One transaction-service operation of a single owner (the create form
carries the fresh storage id and timestamp; the predictor is not
consulted since C1-style sequences supply categories explicitly). -/
inductive Op where
  | createOp : CreateInput → ℕ → ℕ → Op
  | updateOp : ℕ → Patch → Op
  | deleteOp : ℕ → Op

/-- Run one operation through the transaction service. -/
def runOp (cats : List String) (uid : ℕ) (s : St) : Op → Except String St
  | .createOp inp newId newCreatedAt => create cats none s uid inp newId newCreatedAt
  | .updateOp id p => update s uid id p
  | .deleteOp id => delete s uid id

/-- Run a sequence of operations, stopping at the first error. -/
def runOps (cats : List String) (uid : ℕ) (s : St) : List Op → Except String St
  | [] => .ok s
  | op :: ops =>
    match runOp cats uid s op with
    | .error e => .error e
    | .ok s2 => runOps cats uid s2 ops

/-- The per-operation side conditions under which the ledger invariant
survives: creates use a fresh id (mongo object ids), and updates avoid
the two holes C1/C2 exhibit — no amount patched to 0, and no date-only
patch across a month boundary. -/
def SafeOp (s : St) : Op → Prop
  | .createOp _ newId _ => ∀ u ∈ s.txns, u.id ≠ newId
  | .updateOp id p => p.amount ≠ some 0 ∧
      ((patchCatTruthy p || patchAmtTruthy p) = true ∨
        ∀ d, p.date = some d → ∀ t ∈ s.txns, t.id = id →
          d.month = t.date.month ∧ d.year = t.date.year)
  | .deleteOp _ => True

/-- Safety of a whole sequence, each operation judged at the state it
actually runs in. -/
def SafeOps (cats : List String) (uid : ℕ) (s : St) : List Op → Prop
  | [] => True
  | op :: ops => SafeOp s op ∧
      ∀ s2, runOp cats uid s op = .ok s2 → SafeOps cats uid s2 ops

/-- Supporting theorem: every safe sequence of create/update/delete
operations preserves the ledger-consistency invariant. -/
theorem runOps_preserves_inv (cats : List String) (uid : ℕ) (ops : List Op) :
    ∀ s s2 : St, LedgerInv s → IdsUnique s → SafeOps cats uid s ops →
      runOps cats uid s ops = .ok s2 → LedgerInv s2 ∧ IdsUnique s2 := by
  induction ops with
  | nil =>
    intro s s2 h1 h2 _ hok
    simp only [runOps, Except.ok.injEq] at hok
    subst hok
    exact ⟨h1, h2⟩
  | cons op ops ih =>
    intro s s2 h1 h2 hsafe hok
    unfold runOps at hok
    rcases hstep : runOp cats uid s op with e | s3 <;> rw [hstep] at hok <;>
      dsimp only at hok
    · simp at hok
    have hmid : LedgerInv s3 ∧ IdsUnique s3 := by
      rcases op with ⟨inp, nid, nca⟩ | ⟨tid, p⟩ | tid
      · exact create_preserves_inv cats none s uid inp nid nca s3 h1 h2
          hsafe.1 hstep
      · exact update_preserves_inv s uid tid p s3 h1 h2
          hsafe.1.1 hsafe.1.2 hstep
      · exact delete_preserves_inv s uid tid s3 h1 h2 hstep
    exact ih s3 s2 hmid.1 hmid.2 (hsafe.2 s3 hstep) hok

/-- Supporting theorem: from an empty store, after any safe sequence of
operations completes, every Budget Ledger row's `spent` equals the sum
of `amount` over the currently existing expense transactions of its
bucket — the spec's §8 invariant, under the side conditions forced by
the C1/C2 bugs. -/
theorem ledger_invariant_from_empty (cats : List String) (uid : ℕ)
    (ops : List Op) (s2 : St)
    (hsafe : SafeOps cats uid st0 ops)
    (hok : runOps cats uid st0 ops = .ok s2) :
    ∀ c m y, s2.ledger uid c m y = bucketSum s2.txns uid c m y := by
  have h0 : LedgerInv st0 := by
    constructor
    · intro u c m y
      simp [st0, emptyLedger, bucketSum]
    · intro u hu
      simp [st0] at hu
  have hu0 : IdsUnique st0 := by
    simp [IdsUnique, st0]
  have := runOps_preserves_inv cats uid ops st0 s2 h0 hu0 hsafe hok
  exact fun c m y => this.1.1 uid c m y

end FinTrack
